import Mathlib

/-!
Verification of the vibesweep Safe-Fix transaction engine.

Shallow embedding of the engine's core modules, translated from the
TypeScript sources:
  * `src/safety/backup-system.ts`   (`BackupSystem`)
  * `src/safety/safe-fixer.ts`      (`SafeFixer`, `ValidationSuite`)
  * `src/safety/change-preview.ts`  (`Change`, `ChangePreview`)
  * `src/fixers/console-log-fixer.ts` (`ConsoleLogFixer`)
  * `src/config/safe-fix-config.ts` (`SafeFixConfigLoader`)

File-system state is an association list of path/content pairs where a
write prepends and a read takes the first matching entry, so the latest
write wins.  Strings are manipulated through their character lists so
that every definition evaluates by kernel reduction.  External effects
(babel parsing, child processes, prompts) are abstracted as explicit
inputs or oracles; everything downstream of them is translated
statement by statement from the TypeScript.
-/

namespace Vibesweep

/-! ## File-system model -/

/-- Disk state: association list path ↦ content; latest write first. -/
abbrev Fs := List (String × String)

/-- `fs.readFile`: first entry whose path matches, `none` when missing
(the TypeScript rejects the promise; callers catch it). -/
def fsRead (fs : Fs) (p : String) : Option String :=
  (fs.find? (fun e => e.1 == p)).map (fun e => e.2)

/-- `fs.writeFile`: overwrite-or-create, modelled by prepending. -/
def fsWrite (fs : Fs) (p c : String) : Fs :=
  (p, c) :: fs

/-! ## BackupSystem (`src/safety/backup-system.ts`) -/

/-- `BackupHandle` of `backup-system.ts`: id, owning directory, and the
insertion-ordered map original path ↦ backup path (`Map<string,string>`). -/
structure BackupHandle where
  id : String
  backupDir : String
  files : List (String × String)
  deriving Repr, DecidableEq

/-- JS `Map.set`: update an existing key in place, else append. -/
def mapSet (m : List (String × String)) (k v : String) : List (String × String) :=
  if m.any (fun e => e.1 == k) then
    m.map (fun e => if e.1 == k then (k, v) else e)
  else
    m ++ [(k, v)]

/-- Characters since the last slash, accumulated left to right. -/
def basenameAux (cur : List Char) : List Char → List Char
  | [] => cur
  | c :: rest => if c = '/' then basenameAux [] rest else basenameAux (cur ++ [c]) rest

/-- `path.basename`: the component after the last slash. -/
def basename (p : String) : String :=
  ⟨basenameAux [] p.data⟩

/-- Result of `createBackup`: the handle, the disk after the backup
copies, and the warnings logged for unreadable files. -/
structure CreateBackupOut where
  handle : BackupHandle
  fs : Fs
  warnings : List String
  deriving Repr, DecidableEq

/-- Per-file body of the `createBackup` loop: read the source, name the
backup after the file's basename (`// Use just the filename for the
backup to avoid deep directory structures`), write it, record it in the
handle; an unreadable file is logged and skipped. -/
def createBackupStep (backupDir : String)
    (st : List (String × String) × Fs × List String) (filePath : String) :
    List (String × String) × Fs × List String :=
  match fsRead st.2.1 filePath with
  | some content =>
      let fileName := basename filePath
      let backupPath := backupDir ++ "/" ++ fileName
      (mapSet st.1 filePath backupPath, fsWrite st.2.1 backupPath content, st.2.2)
  | none =>
      (st.1, st.2.1, st.2.2 ++ ["Failed to backup " ++ filePath])

/-- `BackupSystem.createBackup` (backup-system.ts:26-64); the random
hex id is an explicit argument. -/
def createBackup (tempDir bid : String) (filePaths : List String) (fs : Fs) :
    CreateBackupOut :=
  let backupDir := tempDir ++ "/backup-" ++ bid
  let st := filePaths.foldl (createBackupStep backupDir) ([], fs, [])
  { handle := { id := bid, backupDir := backupDir, files := st.1 }
  , fs := st.2.1
  , warnings := st.2.2 }

/-- Result of `restore`: disk state, count of restored files, the error
lines passed to `logger.error`, and the function's return value, which
is `void`. -/
structure RestoreOut where
  fs : Fs
  restoredCount : Nat
  loggedErrors : List String
  ret : Unit
  deriving Repr

/-- `BackupSystem.restore` (backup-system.ts:66-86): copy each backup
over its original; a failed read is pushed onto the error list and the
loop continues.  The error list is only logged; the return type is
`Promise<void>`. -/
def restore (files : List (String × String)) (fs : Fs) : RestoreOut :=
  match files with
  | [] => { fs := fs, restoredCount := 0, loggedErrors := [], ret := () }
  | (originalPath, backupPath) :: rest =>
      match fsRead fs backupPath with
      | some content =>
          let out := restore rest (fsWrite fs originalPath content)
          { out with restoredCount := out.restoredCount + 1 }
      | none =>
          let out := restore rest fs
          { out with loggedErrors := (originalPath ++ ": read failed") :: out.loggedErrors }

/-! ## ValidationSuite (`src/safety/safe-fixer.ts`, validation-suite part) -/

/-- JS `string.slice(0, n)` on characters. -/
def strTake (s : String) (n : Nat) : String :=
  ⟨s.data.take n⟩

/-- `ValidationConfig` after `detectCommands` has resolved the optional
commands from `package.json` (that resolution touches the disk and is
taken as an input here). -/
structure ValidationConfig where
  runTests : Bool
  runTypeCheck : Bool
  runLinter : Bool
  testCommand : Option String
  typeCheckCommand : Option String
  lintCommand : Option String
  customCommands : List String

/-- Oracle for `execSync`: what one shell command produces. -/
structure ExecOutcome where
  success : Bool
  errorMsg : String
  output : String

/-- The record built by `ValidationSuite.runCommand`. -/
structure CommandResult where
  success : Bool
  check : String
  error : String
  output : String
  deriving Repr, DecidableEq

/-- JS truthiness of an optional command string: absent or empty is
falsy (`this.config.runTests && this.config.testCommand`). -/
def cmdTruthy : Option String → Option String
  | some c => if c = "" then none else some c
  | none => none

/-- `ValidationSuite.runCommand` (safe-fixer.ts:489-518): success keeps
the full output; failure records the error and the output truncated to
1000 characters (`output.slice(0, 1000)`). -/
def runCommand (exec : String → ExecOutcome) (checkName command : String) : CommandResult :=
  let o := exec command
  if o.success then
    { success := true, check := checkName, error := "", output := o.output }
  else
    { success := false, check := checkName, error := o.errorMsg, output := strTake o.output 1000 }

/-- One check inside `run`: push the name onto `passed` on success,
push the whole result onto `failed` otherwise. -/
def runCheckStep (exec : String → ExecOutcome)
    (acc : List String × List CommandResult) (checkName command : String) :
    List String × List CommandResult :=
  let result := runCommand exec checkName command
  if result.success then (acc.1 ++ [checkName], acc.2) else (acc.1, acc.2 ++ [result])

/-- `ValidationResult` (duration omitted — wall-clock time). -/
structure ValidationResult where
  success : Bool
  passed : List String
  failed : List CommandResult
  deriving Repr, DecidableEq

/-- `ValidationSuite.run` (safe-fixer.ts:430-487): the four blocks run
unconditionally in sequence — tests, type check, linter, then every
custom command — and `success` is `failed.length === 0`. -/
def validationRun (cfg : ValidationConfig) (exec : String → ExecOutcome) : ValidationResult :=
  let acc0 : List String × List CommandResult := ([], [])
  let acc1 := match (if cfg.runTests then cmdTruthy cfg.testCommand else none) with
    | some c => runCheckStep exec acc0 "Tests" c
    | none => acc0
  let acc2 := match (if cfg.runTypeCheck then cmdTruthy cfg.typeCheckCommand else none) with
    | some c => runCheckStep exec acc1 "Type Check" c
    | none => acc1
  let acc3 := match (if cfg.runLinter then cmdTruthy cfg.lintCommand else none) with
    | some c => runCheckStep exec acc2 "Linter" c
    | none => acc2
  let acc4 := cfg.customCommands.foldl
    (fun acc c => runCheckStep exec acc ("Custom: " ++ c) c) acc3
  { success := acc4.2.isEmpty, passed := acc4.1, failed := acc4.2 }

/-- The checks `run` executes, in order, as name/command pairs. -/
def enabledChecks (cfg : ValidationConfig) : List (String × String) :=
  (match (if cfg.runTests then cmdTruthy cfg.testCommand else none) with
    | some c => [("Tests", c)]
    | none => [])
  ++ (match (if cfg.runTypeCheck then cmdTruthy cfg.typeCheckCommand else none) with
    | some c => [("Type Check", c)]
    | none => [])
  ++ (match (if cfg.runLinter then cmdTruthy cfg.lintCommand else none) with
    | some c => [("Linter", c)]
    | none => [])
  ++ cfg.customCommands.map (fun c => ("Custom: " ++ c, c))

/-! ## ConsoleLogFixer (`src/fixers/console-log-fixer.ts`)

The babel parse/traverse step is abstracted: the AST-path input is the
list of `console.log/debug/info` call expressions the traversal visits,
each carrying its location and the three structural facts
`calculateConfidence` inspects.  Everything from that point on —
preserve-marker filtering, confidence arithmetic, the hardcoded 0.9
cut-off, the regex fallback and the change builder — is translated from
the TypeScript.  JS numbers are modelled as rationals; every comparison
the code performs on confidences is exact at these values.  JS string
scans are modelled on character lists. -/

/-- JS `\s` (whitespace class), restricted to the characters that occur
in source lines. -/
def isWsChar (c : Char) : Bool :=
  c == ' ' || c == '\t' || c == '\r' || c == '\n'

/-- Does `needle` occur as a contiguous run inside the list? -/
def listIncludes (needle : List Char) : List Char → Bool
  | [] => needle.isEmpty
  | c :: rest => needle.isPrefixOf (c :: rest) || listIncludes needle rest

/-- Exact rational multiplication through `mkRat`, which the kernel
evaluates (`Rat.mul` does not reduce); `qmul_eq_mul` below shows it is
ordinary multiplication on `ℚ`. -/
def qmul (a b : ℚ) : ℚ :=
  mkRat (a.num * b.num) (a.den * b.den)

/-- JS `String.prototype.includes`. -/
def strIncludes (s sub : String) : Bool :=
  listIncludes sub.data s.data

/-- JS `String.prototype.endsWith`. -/
def strEndsWithStr (s suf : String) : Bool :=
  suf.data.isSuffixOf s.data

/-- JS `String.prototype.startsWith`. -/
def strStartsWithStr (s pre : String) : Bool :=
  pre.data.isPrefixOf s.data

/-- JS `String.prototype.trim`. -/
def jsTrim (s : String) : String :=
  ⟨((s.data.dropWhile isWsChar).reverse.dropWhile isWsChar).reverse⟩

/-- The fixer's whitelist (`WhitelistConfig` as consumed by
`ConsoleLogFixer`): marker comments are matched by `includes`, and the
`patterns` regexes are abstracted as line predicates. -/
structure WhitelistPred where
  comments : List String
  patterns : List (String → Bool)

/-- `shouldPreserve` (console-log-fixer.ts:149-183): whitelist comments
(or the default markers when no whitelist was given) checked by
substring, then the whitelist regexes. -/
def shouldPreserve (wl : Option WhitelistPred) (line : String) : Bool :=
  (match wl with
    | some w => w.comments.any (fun c => strIncludes line c)
    | none =>
        ["@vibesweep-ignore", "@preserve", "eslint-disable.*console"].any
          (fun c => strIncludes line c))
  || (match wl with
    | some w => w.patterns.any (fun p => p line)
    | none => false)

/-- `ConsoleLogFix` (console-log-fixer.ts:9-16). -/
structure ConsoleLogFix where
  file : String
  line : Nat
  column : Nat
  code : String
  isInTestFile : Bool
  confidence : ℚ
  deriving Repr, DecidableEq

/-- Match of `/console\.NAME\s*\(/` anchored at the head of `cs`:
the literal `console.NAME`, greedy whitespace, then `(`; returns the
matched text. -/
def matchSafeAt (name : List Char) (cs : List Char) : Option (List Char) :=
  if ("console.".data ++ name).isPrefixOf cs then
    let rest := cs.drop (8 + name.length)
    let ws := rest.takeWhile isWsChar
    match rest.drop ws.length with
    | '(' :: _ => some ("console.".data ++ name ++ ws ++ ['('])
    | _ => none
  else none

/-- Leftmost match of `/console\.NAME\s*\(/`: scan start positions left
to right (JS regex search). -/
def findSafeFrom (name : List Char) : Nat → List Char → Option (Nat × List Char)
  | _, [] => none
  | i, c :: rest =>
      match matchSafeAt name (c :: rest) with
      | some m => some (i, m)
      | none => findSafeFrom name (i + 1) rest

/-- `line.match(pattern)` for one of the three `safePatterns`: match
index and matched text. -/
def findSafePattern (name line : String) : Option (Nat × String) :=
  (findSafeFrom name.data 0 line.data).map (fun r => (r.1, ⟨r.2⟩))

/-- Body of the `findWithRegex` per-line loop
(console-log-fixer.ts:126-140): one push per matching safe pattern,
suppressed only when the candidate's own line is preserved. -/
def regexFixesForLine (wl : Option WhitelistPred) (filePath : String)
    (index : Nat) (line : String) : List ConsoleLogFix :=
  ["log", "debug", "info"].filterMap (fun name =>
    match findSafePattern name line with
    | some r =>
        if shouldPreserve wl line then none
        else some { file := filePath, line := index + 1, column := r.1, code := r.2,
                    isInTestFile := false, confidence := mkRat 9 10 }
    | none => none)

/-- `findWithRegex` (console-log-fixer.ts:122-143), indexed walk over
the file's lines. -/
def findWithRegexAux (wl : Option WhitelistPred) (filePath : String) :
    Nat → List String → List ConsoleLogFix
  | _, [] => []
  | i, l :: ls => regexFixesForLine wl filePath i l ++ findWithRegexAux wl filePath (i + 1) ls

/-- `findWithRegex` entry point. -/
def findWithRegex (wl : Option WhitelistPred) (filePath : String)
    (lines : List String) : List ConsoleLogFix :=
  findWithRegexAux wl filePath 0 lines

/-- `isTestFile` (console-log-fixer.ts:145-147): the five
`testFilePatterns`. -/
def isTestFile (p : String) : Bool :=
  [".test.js", ".test.ts", ".test.jsx", ".test.tsx"].any (fun suf => strEndsWithStr p suf)
  || [".spec.js", ".spec.ts", ".spec.jsx", ".spec.tsx"].any (fun suf => strEndsWithStr p suf)
  || strIncludes p "__tests__" || strIncludes p "test/" || strIncludes p "tests/"

/-- One console call expression as seen by the babel traversal: its
1-based start location, the generated compact code, and the structural
facts `calculateConfidence` reads. -/
structure AstCand where
  startLine : Nat
  startCol : Nat
  genCode : String
  argsAllStringLit : Bool
  parentIsSequence : Bool
  inConditional : Bool
  deriving Repr, DecidableEq

/-- `calculateConfidence` (console-log-fixer.ts:100-120): base 0.95,
raised to 0.99 when every argument is a string literal, multiplied by
0.8 inside a sequence expression and by 0.9 inside a conditional. -/
def calculateConfidence (c : AstCand) : ℚ :=
  let confidence : ℚ := mkRat 95 100
  let confidence := if c.argsAllStringLit then mkRat 99 100 else confidence
  let confidence := if c.parentIsSequence then qmul confidence (mkRat 8 10) else confidence
  if c.inConditional then qmul confidence (mkRat 9 10) else confidence

/-- `findConsoleLogStatements` (console-log-fixer.ts:39-98): skip test
files; on a successful parse filter the visited calls by the preserve
markers on the call's own and preceding line, then keep only
confidence ≥ 0.9 (a hardcoded literal); on parse failure fall back to
`findWithRegex` — whose result is returned without that filter. -/
def findConsoleLogStatements (wl : Option WhitelistPred) (filePath : String)
    (lines : List String) (parseOk : Bool) (cands : List AstCand) : List ConsoleLogFix :=
  if isTestFile filePath then []
  else if parseOk then
    (cands.filterMap (fun c =>
      if shouldPreserve wl (lines.getD (c.startLine - 1) "")
          || shouldPreserve wl (if 1 < c.startLine then lines.getD (c.startLine - 2) "" else "")
      then none
      else some { file := filePath, line := c.startLine, column := c.startCol,
                  code := c.genCode, isInTestFile := false,
                  confidence := calculateConfidence c })).filter
      (fun fix => fix.confidence ≥ mkRat 9 10)
  else findWithRegex wl filePath lines

/-! ### Change builder (`removeConsoleLogs`, console-log-fixer.ts:185-268) -/

/-- `Change` (change-preview.ts:7-14); `type` is spelled `kind`. -/
inductive ChangeKind
  | remove
  | replace
  | add
  deriving Repr, DecidableEq

structure Change where
  file : String
  line : Nat
  kind : ChangeKind
  oldContent : Option String
  newContent : Option String
  description : String
  deriving Repr, DecidableEq

/-- The category name interpolated into change descriptions. -/
def consoleKindOf (code : String) : String :=
  if strIncludes code "debug" then "debug"
  else if strIncludes code "info" then "info"
  else "log"

/-- Stable insertion, descending by line (JS `sort((a, b) => b.line - a.line)`). -/
def insertFixDesc (f : ConsoleLogFix) : List ConsoleLogFix → List ConsoleLogFix
  | [] => [f]
  | g :: t => if g.line ≤ f.line then f :: g :: t else g :: insertFixDesc f t

def sortFixesDesc : List ConsoleLogFix → List ConsoleLogFix
  | [] => []
  | f :: t => insertFixDesc f (sortFixesDesc t)

/-- The forward scan for a line containing `);`
(console-log-fixer.ts:210-218). -/
def scanForClose (fallback : Nat) : Nat → List String → Nat
  | _, [] => fallback
  | i, l :: t => if strIncludes l ");" then i else scanForClose fallback (i + 1) t

def findEndLine (lines : List String) (lineIndex : Nat) : Nat :=
  scanForClose lineIndex (lineIndex + 1) (lines.drop (lineIndex + 1))

/-- Alternation `(log|debug|info)` followed by `\(`, anchored: length of
the matched name. -/
def matchRemovalName (cs : List Char) : Option Nat :=
  if "log(".data.isPrefixOf cs then some 3
  else if "debug(".data.isPrefixOf cs then some 5
  else if "info(".data.isPrefixOf cs then some 4
  else none

/-- Match of `/\s*console\.(log|debug|info)\([^)]*\);\s*/` anchored at
the head of `cs`: returns the match length.  Greedy `\s*`, `[^)]*` up
to the first `)`, then the literal `);`, then trailing `\s*`; each
quantifier is deterministic here because no backtracking alternative
can succeed (whitespace cannot start `console.` and `[^)]*` can only
stop at `)`). -/
def matchRemovalAt (cs : List Char) : Option Nat :=
  let ws := cs.takeWhile isWsChar
  let rest := cs.drop ws.length
  if "console.".data.isPrefixOf rest then
    let rest2 := rest.drop 8
    match matchRemovalName rest2 with
    | some nameLen =>
        let rest3 := rest2.drop (nameLen + 1)
        let body := rest3.takeWhile (fun c => c != ')')
        match rest3.drop body.length with
        | ')' :: ';' :: tail =>
            let ws2 := tail.takeWhile isWsChar
            some (ws.length + 8 + nameLen + 1 + body.length + 2 + ws2.length)
        | _ => none
    | none => none
  else none

/-- Leftmost match of the removal regex: start position and length. -/
def findRemovalFrom : Nat → List Char → Option (Nat × Nat)
  | _, [] => none
  | i, c :: rest =>
      match matchRemovalAt (c :: rest) with
      | some len => some (i, len)
      | none => findRemovalFrom (i + 1) rest

/-- `line.replace(/\s*console\.(log|debug|info)\([^)]*\);\s*/, '  ')`
(console-log-fixer.ts:243). -/
def replaceConsoleCall (line : String) : String :=
  match findRemovalFrom 0 line.data with
  | some r => ⟨line.data.take r.1 ++ "  ".data ++ line.data.drop (r.1 + r.2)⟩
  | none => line

/-- The loop body of `removeConsoleLogs` over the descending-sorted fix
list, carrying the `processedLines` set. -/
def removeConsoleLogsAux (filePath : String) (lines : List String) :
    List ConsoleLogFix → List Nat → List Change
  | [], _ => []
  | fix :: rest, processed =>
      let lineIndex := fix.line - 1
      if processed.contains lineIndex then
        removeConsoleLogsAux filePath lines rest processed
      else
        let line := lines.getD lineIndex ""
        let endLine :=
          if !strEndsWithStr (jsTrim line) ");" && !strEndsWithStr (jsTrim line) ")" then
            findEndLine lines lineIndex
          else lineIndex
        let newProcessed := processed ++ List.range' lineIndex (endLine - lineIndex + 1)
        let newChanges :=
          if lineIndex = endLine then
            if strStartsWithStr (jsTrim line) "console." then
              [{ file := filePath, line := fix.line, kind := ChangeKind.remove,
                 oldContent := some line, newContent := none,
                 description := "Remove console." ++ consoleKindOf fix.code ++ " statement" }]
            else
              [{ file := filePath, line := fix.line, kind := ChangeKind.replace,
                 oldContent := some line, newContent := some (replaceConsoleCall line),
                 description := "Remove console." ++ consoleKindOf fix.code ++ " from line" }]
          else
            (List.range' lineIndex (endLine - lineIndex + 1)).map (fun i =>
              { file := filePath, line := i + 1, kind := ChangeKind.remove,
                oldContent := some (lines.getD i ""), newContent := none,
                description := "Remove multi-line console.log statement" })
        newChanges ++ removeConsoleLogsAux filePath lines rest newProcessed

/-- `removeConsoleLogs` (console-log-fixer.ts:185-268). -/
def removeConsoleLogs (filePath : String) (lines : List String)
    (fixes : List ConsoleLogFix) : List Change :=
  removeConsoleLogsAux filePath lines (sortFixesDesc fixes) []

/-! ## SafeFixConfigLoader (`src/config/safe-fix-config.ts`) -/

/-- `WhitelistConfig` as it appears in the configuration file: all three
lists are plain strings (the fixer later compiles `patterns`). -/
structure WhitelistConfig where
  files : List String
  patterns : List String
  comments : List String
  deriving Repr, DecidableEq

/-- `FixTypeConfig` (safe-fix-config.ts:11-15). -/
structure FixTypeConfig where
  enabled : Bool
  excludePatterns : List String
  minConfidence : Option ℚ
  deriving Repr, DecidableEq

/-- The `whitelist` block of `getDefaultConfig`
(safe-fix-config.ts:116-136). -/
def defaultWhitelist : WhitelistConfig :=
  { files := ["**/vendor/**", "**/generated/**", "**/node_modules/**",
              "**/*.min.js", "**/dist/**", "**/build/**"]
  , patterns := ["_unused.*", "DEBUG_.*", "LEGACY_.*"]
  , comments := ["@vibesweep-ignore", "@preserve", "eslint-disable.*console", "TODO: keep"] }

/-- The `console-logs` entry of `getDefaultConfig().fixes.categories`
(safe-fix-config.ts:90-94). -/
def defaultConsoleLogsCategory : FixTypeConfig :=
  { enabled := true
  , excludePatterns := ["**/debug/**", "**/scripts/**"]
  , minConfidence := some (mkRat 9 10) }

/-- The whitelist component of `SafeFixConfigLoader.merge`
(safe-fix-config.ts:150-154): each list is the default list with the
user's entries spread after it (`userConfig.whitelist?.files || []`). -/
def mergeWhitelist (u : Option WhitelistConfig) : WhitelistConfig :=
  { files := defaultWhitelist.files ++ (match u with | some w => w.files | none => [])
  , patterns := defaultWhitelist.patterns ++ (match u with | some w => w.patterns | none => [])
  , comments := defaultWhitelist.comments ++ (match u with | some w => w.comments | none => []) }

/-! ## SafeFixer transaction (`src/safety/safe-fixer.ts`, `runSafeFixes`)

`runSafeFixes` orchestrates effectful collaborators; the model takes
their outcomes as parameters — the collected change set, the user's
preview decision and refinement, whether validation passed — and
records the externally visible effects in a trace alongside the
`SafeFixResult` the function returns.  Exceptions thrown before any
write (initialize, pre-flight, collect) are folded into `earlyError`;
the per-file try/catch inside `createBackup` and `commitChanges`'s own
catch mean neither throws. -/

/-- `UserDecision` (change-preview.ts:25): `'accept' | 'reject' |
'partial' | 'skip'`; the per-file review value is spelled
`reviewEach`. -/
inductive Decision
  | accept
  | reject
  | reviewEach
  | skip
  deriving Repr, DecidableEq

/-- The collaborator outcomes feeding one `runSafeFixes` call. -/
structure RunParams where
  requireBackup : Bool
  dryRun : Bool
  hasValidation : Bool
  isGitRepo : Bool
  commitConfirmed : Bool
  earlyError : Option String
  collected : List Change
  decision : Decision
  refined : List Change
  validationOk : Bool

/-- Which effects the run performed. -/
structure RunTrace where
  wroteFiles : Bool
  backupCreated : Bool
  restoreAttempted : Bool
  cleanupCalled : Bool
  validationRan : Bool
  validationFailed : Bool
  commitAttempted : Bool
  deriving Repr, DecidableEq

/-- `SafeFixResult` (safe-fixer.ts:30-36). -/
structure SafeFixResult where
  success : Bool
  filesModified : Nat
  changesApplied : Nat
  backupId : Option String
  errors : List String
  deriving Repr, DecidableEq

/-- `runSafeFixes` (safe-fixer.ts:60-171), phase by phase: empty
collection, rejection, or an empty refined set return success with no
mutation; a backup is created only when `requireBackup` holds outside a
dry run; applying sets the counters; a validation failure rolls back
and returns early only when a backup exists, otherwise control falls
through to the commit phase, which sets `success := true`. -/
def runSafeFixes (p : RunParams) : SafeFixResult × RunTrace :=
  let result0 : SafeFixResult :=
    { success := false, filesModified := 0, changesApplied := 0, backupId := none, errors := [] }
  let trace0 : RunTrace :=
    { wroteFiles := false, backupCreated := false, restoreAttempted := false,
      cleanupCalled := false, validationRan := false, validationFailed := false,
      commitAttempted := false }
  match p.earlyError with
  | some msg => ({ result0 with errors := [msg] }, trace0)
  | none =>
    if p.collected.isEmpty then ({ result0 with success := true }, trace0)
    else if p.decision = Decision.reject || p.decision = Decision.skip then
      ({ result0 with success := true }, trace0)
    else
      let finalChangeSet := if p.decision = Decision.reviewEach then p.refined else p.collected
      if finalChangeSet.isEmpty then ({ result0 with success := true }, trace0)
      else
        let backupCreated := p.requireBackup && !p.dryRun
        let result1 :=
          if backupCreated then { result0 with backupId := some "backup-id" } else result0
        let result2 :=
          if p.dryRun then result1
          else { result1 with
                 filesModified := ((finalChangeSet.map (fun c => c.file)).dedup).length,
                 changesApplied := finalChangeSet.length }
        let trace1 := { trace0 with wroteFiles := !p.dryRun, backupCreated := backupCreated }
        let commitAttempted := !p.dryRun && p.isGitRepo && p.commitConfirmed
        if !p.dryRun && p.hasValidation then
          if !p.validationOk then
            if backupCreated then
              ({ result2 with
                  errors := result2.errors ++ ["Validation failed - changes rolled back"] },
               { trace1 with
                  restoreAttempted := true
                  validationRan := true
                  validationFailed := true })
            else
              ({ result2 with success := true },
               { trace1 with
                  validationRan := true
                  validationFailed := true
                  commitAttempted := commitAttempted })
          else
            ({ result2 with success := true },
             { trace1 with
                cleanupCalled := backupCreated
                validationRan := true
                commitAttempted := commitAttempted })
        else
          ({ result2 with success := true },
           { trace1 with
              cleanupCalled := backupCreated
              commitAttempted := commitAttempted })

/-! ## Applying a change set to file content

`SafeFixer.applyChangesToFile` (safe-fixer.ts:307-336) and
`ChangePreview.generateDiff` (change-preview.ts:28-58) share the same
loop: sort the file's changes descending by line, then splice each into
the line array.  `applySimultaneous` is the specification the claim
compares against: every edit interpreted against the original file's
line numbering in one bottom-up pass. -/

/-- One iteration of the apply loop: `splice(lineIndex, 1)` for remove,
`lines[lineIndex] = newContent` for replace,
`splice(lineIndex + 1, 0, newContent)` for add (each guarded on
`newContent !== undefined`).  `line` is 1-based in every change the
fixers build. -/
def applyOne (lines : List String) (change : Change) : List String :=
  let lineIndex := change.line - 1
  match change.kind with
  | ChangeKind.remove => lines.take lineIndex ++ lines.drop (lineIndex + 1)
  | ChangeKind.replace =>
      match change.newContent with
      | some s => lines.set lineIndex s
      | none => lines
  | ChangeKind.add =>
      match change.newContent with
      | some s => lines.take (lineIndex + 1) ++ s :: lines.drop (lineIndex + 1)
      | none => lines

/-- Stable insertion, descending by line (JS stable
`sort((a, b) => b.line - a.line)`). -/
def insertChangeDesc (c : Change) : List Change → List Change
  | [] => [c]
  | d :: t => if d.line ≤ c.line then c :: d :: t else d :: insertChangeDesc c t

def sortChangesDesc : List Change → List Change
  | [] => []
  | c :: t => insertChangeDesc c (sortChangesDesc t)

/-- The shared apply loop of `applyChangesToFile` / `generateDiff`. -/
def applyChangesToFile (lines : List String) (changes : List Change) : List String :=
  (sortChangesDesc changes).foldl applyOne lines

/-- How one original line reads after the change (if any) addressed to
it: removed, replaced, kept with an insertion after it, or kept. -/
def renderLine (oc : Option Change) (l : String) : List String :=
  match oc with
  | none => [l]
  | some c =>
      match c.kind with
      | ChangeKind.remove => []
      | ChangeKind.replace =>
          match c.newContent with
          | some s => [s]
          | none => [l]
      | ChangeKind.add =>
          match c.newContent with
          | some s => [l, s]
          | none => [l]

/-- The change addressed to 1-based line `ln`, if any. -/
def changeAt (cs : List Change) (ln : Nat) : Option Change :=
  cs.find? (fun c => c.line == ln)

def applySimultaneousAux (cs : List Change) : Nat → List String → List String
  | _, [] => []
  | k, l :: ls => renderLine (changeAt cs k) l ++ applySimultaneousAux cs (k + 1) ls

/-- Specification semantics: each edit applied at its original 1-based
line number, one pass from the top (equivalently, one at a time from
the bottom of the file upward — no edit's index is disturbed). -/
def applySimultaneous (cs : List Change) (lines : List String) : List String :=
  applySimultaneousAux cs 1 lines

/-- The whitelist the fixer receives under the merged default
configuration: the default marker comments; the three default
`patterns` regexes (`_unused.*`, `DEBUG_.*`, `LEGACY_.*`) match none of
the lines considered here and are abstracted as no predicates. -/
def mergedWhitelistPred : WhitelistPred :=
  { comments := defaultWhitelist.comments, patterns := [] }

/-- A concrete run: one accepted console.log removal, `requireBackup`
off, dry run off, validation configured and failing. -/
def noBackupFailureParams : RunParams :=
  { requireBackup := false, dryRun := false, hasValidation := true, isGitRepo := false
  , commitConfirmed := false, earlyError := none
  , collected := [{ file := "src/app.js", line := 1, kind := ChangeKind.remove,
                    oldContent := some "console.log('x');", newContent := none,
                    description := "Remove console.log statement" }]
  , decision := Decision.accept, refined := [], validationOk := false }

/-! ## Theorems -/

theorem fsRead_fsWrite (fs : Fs) (p c q : String) :
    fsRead (fsWrite fs p c) q = if q = p then some c else fsRead fs q := by
  simp only [fsRead, fsWrite, List.find?]
  by_cases h : q = p
  · subst h; simp
  · have : (p == q) = false := by
      simp [beq_iff_eq]; exact fun hpq => h hpq.symm
    simp [this, h]

theorem restore_cons_some (o b c : String) (t : List (String × String)) (fs : Fs)
    (hread : fsRead fs b = some c) :
    restore ((o, b) :: t) fs =
      { restore t (fsWrite fs o c) with
        restoredCount := (restore t (fsWrite fs o c)).restoredCount + 1 } := by
  rw [restore, hread]

theorem restore_cons_none (o b : String) (t : List (String × String)) (fs : Fs)
    (hread : fsRead fs b = none) :
    restore ((o, b) :: t) fs =
      { restore t fs with
        loggedErrors := (o ++ ": read failed") :: (restore t fs).loggedErrors } := by
  rw [restore, hread]

theorem restore_read_preserved (h : List (String × String)) (fs : Fs) (q : String)
    (hq : ∀ e ∈ h, q ≠ e.1) :
    fsRead (restore h fs).fs q = fsRead fs q := by
  induction h generalizing fs with
  | nil => rfl
  | cons e t ih =>
      obtain ⟨o, b⟩ := e
      have hqo : q ≠ o := hq (o, b) (List.mem_cons_self _ _)
      have hqt : ∀ e ∈ t, q ≠ e.1 := fun e he => hq e (List.mem_cons_of_mem _ he)
      cases hread : fsRead fs b with
      | some c =>
          rw [restore_cons_some o b c t fs hread]
          exact (ih (fsWrite fs o c) hqt).trans (by rw [fsRead_fsWrite, if_neg hqo])
      | none =>
          rw [restore_cons_none o b t fs hread]
          exact ih fs hqt

theorem restore_accounts_for_every_file (h : List (String × String)) (fs : Fs) :
    (restore h fs).restoredCount + (restore h fs).loggedErrors.length = h.length := by
  induction h generalizing fs with
  | nil => rfl
  | cons e t ih =>
      obtain ⟨o, b⟩ := e
      cases hread : fsRead fs b with
      | some c =>
          rw [restore_cons_some o b c t fs hread]
          have := ih (fsWrite fs o c)
          dsimp only
          simp only [List.length_cons]
          omega
      | none =>
          rw [restore_cons_none o b t fs hread]
          have := ih fs
          dsimp only
          simp only [List.length_cons]
          omega

/-- C2: two target files sharing a basename.  The spec (§4.4, Scenario D)
requires distinct backup paths; `createBackup` names backups by basename
alone, so `a/util.js` and `b/util.js` are both mapped to the same backup
path and the second copy silently overwrites the first (the surviving
backup content is `"B"`; `"A"` is lost, and a later restore would write
`"B"` over both originals). -/
theorem createBackup_basename_collision :
    (createBackup "/tmp/vibesweep-backups" "cafebabe" ["a/util.js", "b/util.js"]
        [("a/util.js", "A"), ("b/util.js", "B")]).handle.files
      = [("a/util.js", "/tmp/vibesweep-backups/backup-cafebabe/util.js"),
         ("b/util.js", "/tmp/vibesweep-backups/backup-cafebabe/util.js")]
    ∧ fsRead (createBackup "/tmp/vibesweep-backups" "cafebabe" ["a/util.js", "b/util.js"]
        [("a/util.js", "A"), ("b/util.js", "B")]).fs
        "/tmp/vibesweep-backups/backup-cafebabe/util.js" = some "B" := by
  constructor
  · decide
  · decide

/-- C3 counterexample: `restore` has return type `Promise<void>`.  In a
run where one of two backups is unreadable the failure is logged, yet
the value returned to the caller is indistinguishable from that of a
fully successful run — the aggregate failure list is not returned. -/
theorem restore_returns_no_failure_list :
    (restore [("a.txt", "/tmp/b1"), ("b.txt", "/tmp/b2")] [("/tmp/b1", "A")]).loggedErrors
      = ["b.txt: read failed"]
    ∧ (restore [("a.txt", "/tmp/b1"), ("b.txt", "/tmp/b2")] [("/tmp/b1", "A")]).restoredCount = 1
    ∧ (restore [("a.txt", "/tmp/b1"), ("b.txt", "/tmp/b2")] [("/tmp/b1", "A")]).ret
        = (restore [("a.txt", "/tmp/b1")] [("/tmp/b1", "A")]).ret := by
  refine ⟨?_, ?_, rfl⟩
  · decide
  · decide

/-- C3 (amended): `restore` is best-effort — under distinct original
paths and backup paths disjoint from original paths, every entry whose
backup is readable is copied back over its original even when other
entries fail, every entry whose backup is unreadable contributes one
line to the logged aggregate failure list, the two cases account for
every recorded file, and the value returned to the caller is `()`. -/
theorem restore_best_effort (h : List (String × String)) (fs : Fs)
    (hnd : (h.map Prod.fst).Nodup)
    (hdisj : ∀ e ∈ h, ∀ e' ∈ h, e.2 ≠ e'.1) :
    (∀ e ∈ h,
      ((fsRead fs e.2).isSome →
        fsRead (restore h fs).fs e.1 = fsRead fs e.2)
      ∧ (fsRead fs e.2 = none →
        (e.1 ++ ": read failed") ∈ (restore h fs).loggedErrors))
    ∧ (restore h fs).restoredCount + (restore h fs).loggedErrors.length = h.length
    ∧ (restore h fs).ret = () := by
  refine ⟨?_, restore_accounts_for_every_file h fs, rfl⟩
  induction h generalizing fs with
  | nil => intro e he; exact absurd he (List.not_mem_nil e)
  | cons hd t ih =>
      obtain ⟨o, b⟩ := hd
      have hnd' : (t.map Prod.fst).Nodup := (List.nodup_cons.mp hnd).2
      have hno : o ∉ t.map Prod.fst := (List.nodup_cons.mp hnd).1
      have hdisj' : ∀ e ∈ t, ∀ e' ∈ t, e.2 ≠ e'.1 := fun e he e' he' =>
        hdisj e (List.mem_cons_of_mem _ he) e' (List.mem_cons_of_mem _ he')
      intro e he
      rcases List.mem_cons.mp he with heq | hmem
      · subst heq
        cases hread : fsRead fs b with
        | some c =>
            rw [restore_cons_some o b c t fs hread]
            dsimp only
            constructor
            · intro _
              have hq : ∀ e' ∈ t, o ≠ e'.1 := by
                intro e' he' hcontra
                exact hno (hcontra ▸ List.mem_map_of_mem Prod.fst he')
              rw [restore_read_preserved t (fsWrite fs o c) o hq,
                fsRead_fsWrite, if_pos rfl]
            · intro hcontra
              exact absurd hcontra (by simp)
        | none =>
            rw [restore_cons_none o b t fs hread]
            dsimp only
            refine ⟨fun hs => ?_, fun _ => List.mem_cons_self _ _⟩
            exact absurd hs (by simp)
      · cases hread : fsRead fs b with
        | some c =>
            rw [restore_cons_some o b c t fs hread]
            dsimp only
            have hbne : e.2 ≠ o :=
              hdisj e (List.mem_cons_of_mem _ hmem) (o, b) (List.mem_cons_self _ _)
            have hfs' : fsRead (fsWrite fs o c) e.2 = fsRead fs e.2 := by
              rw [fsRead_fsWrite, if_neg hbne]
            have hih := ih (fsWrite fs o c) hnd' hdisj' e hmem
            constructor
            · intro hs
              rw [← hfs'] at hs ⊢
              exact hih.1 hs
            · intro hn
              rw [← hfs'] at hn
              exact hih.2 hn
        | none =>
            rw [restore_cons_none o b t fs hread]
            dsimp only
            have hih := ih fs hnd' hdisj' e hmem
            exact ⟨hih.1, fun hn => List.mem_cons_of_mem _ (hih.2 hn)⟩

/-- Closed witness for `restore_best_effort`: a two-file handle whose
first backup is unreadable; the second file is still restored, the
failure is logged, both files are accounted for and the return value
is `()`. -/
theorem restore_best_effort_witness :
    (∀ e ∈ [("a.txt", "/tmp/b1"), ("b.txt", "/tmp/b2")],
      ((fsRead [("/tmp/b2", "B")] e.2).isSome →
        fsRead (restore [("a.txt", "/tmp/b1"), ("b.txt", "/tmp/b2")] [("/tmp/b2", "B")]).fs e.1
          = fsRead [("/tmp/b2", "B")] e.2)
      ∧ (fsRead [("/tmp/b2", "B")] e.2 = none →
        (e.1 ++ ": read failed")
          ∈ (restore [("a.txt", "/tmp/b1"), ("b.txt", "/tmp/b2")] [("/tmp/b2", "B")]).loggedErrors))
    ∧ (restore [("a.txt", "/tmp/b1"), ("b.txt", "/tmp/b2")] [("/tmp/b2", "B")]).restoredCount
        + (restore [("a.txt", "/tmp/b1"), ("b.txt", "/tmp/b2")] [("/tmp/b2", "B")]).loggedErrors.length
        = 2
    ∧ (restore [("a.txt", "/tmp/b1"), ("b.txt", "/tmp/b2")] [("/tmp/b2", "B")]).ret = () :=
  restore_best_effort [("a.txt", "/tmp/b1"), ("b.txt", "/tmp/b2")] [("/tmp/b2", "B")]
    (by decide) (by decide)

theorem runCommand_success (exec : String → ExecOutcome) (n c : String) :
    (runCommand exec n c).success = (exec c).success := by
  unfold runCommand
  by_cases h : (exec c).success <;> simp [h]

theorem foldl_runCheckStep (exec : String → ExecOutcome)
    (l : List (String × String)) (acc : List String × List CommandResult) :
    l.foldl (fun a nc => runCheckStep exec a nc.1 nc.2) acc
      = (acc.1 ++ (l.filter (fun nc => (exec nc.2).success)).map Prod.fst,
         acc.2 ++ (l.filter (fun nc => !(exec nc.2).success)).map
           (fun nc => runCommand exec nc.1 nc.2)) := by
  induction l generalizing acc with
  | nil => simp
  | cons nc t ih =>
      simp only [List.foldl_cons, List.filter_cons]
      rw [ih]
      by_cases h : (exec nc.2).success
      · simp [runCheckStep, runCommand_success, h]
      · simp only [runCheckStep]
        rw [runCommand_success]
        simp [h]

theorem validationRun_eq_fold (cfg : ValidationConfig) (exec : String → ExecOutcome) :
    validationRun cfg exec =
      (let acc := (enabledChecks cfg).foldl
          (fun a nc => runCheckStep exec a nc.1 nc.2) ([], [])
       { success := acc.2.isEmpty, passed := acc.1, failed := acc.2 }) := by
  unfold validationRun enabledChecks
  rw [List.foldl_append, List.foldl_append, List.foldl_append, List.foldl_map]
  cases (if cfg.runTests then cmdTruthy cfg.testCommand else none) <;>
    cases (if cfg.runTypeCheck then cmdTruthy cfg.typeCheckCommand else none) <;>
      cases (if cfg.runLinter then cmdTruthy cfg.lintCommand else none) <;>
        rfl

/-- C4: `ValidationSuite.run` never short-circuits.  The passed list is
exactly the names of the succeeding enabled checks, the failed list is
exactly the records of the failing enabled checks (so every configured
check is reported, in order, regardless of earlier failures), the
aggregate `success` flag is true exactly when no check failed, and
every captured failure output is truncated to at most 1000 characters. -/
theorem validationRun_reports_every_check (cfg : ValidationConfig)
    (exec : String → ExecOutcome) :
    (validationRun cfg exec).passed
        = ((enabledChecks cfg).filter (fun nc => (exec nc.2).success)).map Prod.fst
    ∧ (validationRun cfg exec).failed
        = ((enabledChecks cfg).filter (fun nc => !(exec nc.2).success)).map
            (fun nc => runCommand exec nc.1 nc.2)
    ∧ ((validationRun cfg exec).success = true ↔ (validationRun cfg exec).failed = [])
    ∧ (∀ f ∈ (validationRun cfg exec).failed, f.output.length ≤ 1000) := by
  have hrun := validationRun_eq_fold cfg exec
  rw [foldl_runCheckStep] at hrun
  simp only [List.nil_append] at hrun
  refine ⟨by rw [hrun], by rw [hrun], ?_, ?_⟩
  · rw [hrun]
    simp [List.isEmpty_iff]
  · intro f hf
    rw [hrun] at hf
    simp only [List.mem_map, List.mem_filter] at hf
    obtain ⟨nc, ⟨_, hfail⟩, hfeq⟩ := hf
    subst hfeq
    simp only [Bool.not_eq_true'] at hfail
    simp only [runCommand, hfail, Bool.false_eq_true, if_false]
    calc ((strTake (exec nc.2).output 1000).length)
        = ((exec nc.2).output.data.take 1000).length := rfl
      _ ≤ 1000 := by
          rw [List.length_take]
          omega

/-- Scenario C witness for `validationRun_reports_every_check`: three
checks configured, the second (type check) failing — all three outcomes
are reported and the aggregate flag is false. -/
theorem validationRun_reports_every_check_witness :
    ((validationRun
        { runTests := true, runTypeCheck := true, runLinter := true,
          testCommand := some "npm test", typeCheckCommand := some "npx tsc --noEmit",
          lintCommand := some "npm run lint", customCommands := [] }
        (fun c => if c = "npx tsc --noEmit" then
            { success := false, errorMsg := "Command failed", output := "error TS2304" }
          else { success := true, errorMsg := "", output := "ok" })).passed
      = ["Tests", "Linter"])
    ∧ ((validationRun
        { runTests := true, runTypeCheck := true, runLinter := true,
          testCommand := some "npm test", typeCheckCommand := some "npx tsc --noEmit",
          lintCommand := some "npm run lint", customCommands := [] }
        (fun c => if c = "npx tsc --noEmit" then
            { success := false, errorMsg := "Command failed", output := "error TS2304" }
          else { success := true, errorMsg := "", output := "ok" })).failed.map
        (fun f => f.check)
      = ["Type Check"])
    ∧ ((validationRun
        { runTests := true, runTypeCheck := true, runLinter := true,
          testCommand := some "npm test", typeCheckCommand := some "npx tsc --noEmit",
          lintCommand := some "npm run lint", customCommands := [] }
        (fun c => if c = "npx tsc --noEmit" then
            { success := false, errorMsg := "Command failed", output := "error TS2304" }
          else { success := true, errorMsg := "", output := "ok" })).success
      = false) := by
  have h := validationRun_reports_every_check
    { runTests := true, runTypeCheck := true, runLinter := true,
      testCommand := some "npm test", typeCheckCommand := some "npx tsc --noEmit",
      lintCommand := some "npm run lint", customCommands := [] }
    (fun c => if c = "npx tsc --noEmit" then
        { success := false, errorMsg := "Command failed", output := "error TS2304" }
      else { success := true, errorMsg := "", output := "ok" })
  refine ⟨?_, ?_, ?_⟩
  · rw [h.1]; decide
  · rw [h.2.1]; decide
  · have hiff := h.2.2.1
    have hfailed := h.2.1
    by_contra hcon
    simp only [Bool.not_eq_false] at hcon
    have := hiff.mp hcon
    rw [hfailed] at this
    exact absurd this (by decide)

/-- C1 (amended): on every run that wrote files and whose validation
failed, if `requireBackup` was set — so a backup handle exists — then a
restore is attempted.  The original claim extends the guarantee to runs
without a backup handle; `no_restore_attempted_without_backup` refutes
that extension on the code. -/
theorem runSafeFixes_rollback_when_backup (p : RunParams)
    (hw : (runSafeFixes p).2.wroteFiles = true)
    (hf : (runSafeFixes p).2.validationFailed = true)
    (hb : p.requireBackup = true) :
    (runSafeFixes p).2.restoreAttempted = true := by
  cases hp : p.earlyError with
  | some msg => simp [runSafeFixes, hp] at hw
  | none =>
      revert hw hf
      simp only [runSafeFixes, hp]
      split_ifs <;> simp_all

/-- C9: with `requireBackup` false and `dryRun` false, in a run that
wrote files and whose validation suite failed, `runSafeFixes` falls
through the rollback branch (which is guarded on the backup handle) and
returns `success = true` with an empty `errors` list; no restore is
attempted and the result record carries no trace of the failure. -/
theorem runSafeFixes_silent_success_no_backup (p : RunParams)
    (hb : p.requireBackup = false) (hd : p.dryRun = false)
    (hv : p.hasValidation = true) (hvo : p.validationOk = false)
    (hw : (runSafeFixes p).2.wroteFiles = true) :
    (runSafeFixes p).1.success = true ∧ (runSafeFixes p).1.errors = []
    ∧ (runSafeFixes p).2.validationFailed = true
    ∧ (runSafeFixes p).2.restoreAttempted = false := by
  cases hp : p.earlyError with
  | some msg => simp [runSafeFixes, hp] at hw
  | none =>
      revert hw
      simp only [runSafeFixes, hp]
      split_ifs <;> simp_all

/-- Every fix the regex fallback emits points at a line whose own text
is not preserved, and carries the constant confidence 0.9. -/
theorem mem_findWithRegexAux (wl : Option WhitelistPred) (fp : String) :
    ∀ (i : Nat) (ls : List String) (f : ConsoleLogFix),
      f ∈ findWithRegexAux wl fp i ls →
      ∃ j, j < ls.length ∧ f.line = i + j + 1
        ∧ shouldPreserve wl (ls.getD j "") = false ∧ f.confidence = mkRat 9 10 := by
  intro i ls
  induction ls generalizing i with
  | nil => intro f hf; exact absurd hf (List.not_mem_nil f)
  | cons l t ih =>
      intro f hf
      rw [findWithRegexAux, List.mem_append] at hf
      rcases hf with hf | hf
      · rw [regexFixesForLine, List.mem_filterMap] at hf
        obtain ⟨name, _, hsome⟩ := hf
        cases hm : findSafePattern name l with
        | none => rw [hm] at hsome; exact absurd hsome (by simp)
        | some r =>
            rw [hm] at hsome
            dsimp only at hsome
            by_cases hpres : shouldPreserve wl l
            · rw [if_pos hpres] at hsome; exact absurd hsome (by simp)
            · rw [if_neg hpres] at hsome
              refine ⟨0, by simp, ?_, ?_, ?_⟩
              · simp only [Option.some_inj] at hsome
                rw [← hsome]
              · simpa using Bool.eq_false_iff.mpr hpres
              · simp only [Option.some_inj] at hsome
                rw [← hsome]
      · obtain ⟨j, hj, hline, hpres, hconf⟩ := ih (i + 1) f hf
        refine ⟨j + 1, by simpa using hj, by omega, by simpa using hpres, hconf⟩

/-- C5 (amended): on the AST path a candidate whose own line or whose
immediately preceding line matches the whitelist is suppressed and
never returned; on the regex fallback only the candidate's own line is
consulted, so suppression by the preceding line holds on the AST path
alone (`regex_fallback_misses_preceding_marker` shows the fallback
violating the original claim). -/
theorem preserve_marker_suppression :
    (∀ (wl : Option WhitelistPred) (fp : String) (lines : List String)
        (cands : List AstCand) (ln : Nat),
      (shouldPreserve wl (lines.getD (ln - 1) "")
        || shouldPreserve wl (if 1 < ln then lines.getD (ln - 2) "" else "")) = true →
      ∀ f ∈ findConsoleLogStatements wl fp lines true cands, f.line ≠ ln)
    ∧ (∀ (wl : Option WhitelistPred) (fp : String) (lines : List String) (ln : Nat),
      shouldPreserve wl (lines.getD (ln - 1) "") = true →
      ∀ f ∈ findWithRegex wl fp lines, f.line ≠ ln) := by
  constructor
  · intro wl fp lines cands ln hp f hf hfl
    rw [findConsoleLogStatements] at hf
    cases ht : isTestFile fp with
    | true => simp [ht] at hf
    | false =>
        rw [ht] at hf
        simp only [Bool.false_eq_true, if_false, if_true] at hf
        rw [List.mem_filter] at hf
        obtain ⟨hf, _⟩ := hf
        rw [List.mem_filterMap] at hf
        obtain ⟨c, _, hsome⟩ := hf
        by_cases hcond : (shouldPreserve wl (lines.getD (c.startLine - 1) "")
            || shouldPreserve wl (if 1 < c.startLine then lines.getD (c.startLine - 2) "" else ""))
            = true
        · rw [if_pos hcond] at hsome
          exact absurd hsome (by simp)
        · rw [if_neg hcond] at hsome
          have hline : f.line = c.startLine := by
            rw [← Option.some_inj.mp hsome]
          rw [hfl] at hline
          rw [hline] at hp
          exact hcond hp
  · intro wl fp lines ln hp f hf hfl
    obtain ⟨j, hj, hline, hpres, _⟩ := mem_findWithRegexAux wl fp 0 lines f hf
    rw [hfl] at hline
    have hj' : j = ln - 1 := by omega
    rw [hj'] at hpres
    rw [hpres] at hp
    exact absurd hp (by simp)

/-- C8 (amended): every candidate either detection path returns has
confidence at least 0.9 (`mkRat 9 10`).  That bound is the hardcoded
literal of console-log-fixer.ts:97 (the regex fallback emits exactly
0.9 and is returned unfiltered); it does not vary with the per-category
`minConfidence` setting, which no code in the detector reads —
`configured_minimum_not_enforced` refutes the configurability half of
the original claim. -/
theorem detector_minimum_is_hardcoded (wl : Option WhitelistPred) (fp : String)
    (lines : List String) (parseOk : Bool) (cands : List AstCand) :
    ∀ f ∈ findConsoleLogStatements wl fp lines parseOk cands,
      mkRat 9 10 ≤ f.confidence := by
  intro f hf
  rw [findConsoleLogStatements] at hf
  cases ht : isTestFile fp with
  | true => simp [ht] at hf
  | false =>
      rw [ht] at hf
      simp only [Bool.false_eq_true, if_false] at hf
      cases parseOk with
      | true =>
          rw [if_pos rfl] at hf
          rw [List.mem_filter] at hf
          exact of_decide_eq_true hf.2
      | false =>
          rw [if_neg (by simp)] at hf
          obtain ⟨_, _, _, _, hconf⟩ := mem_findWithRegexAux wl fp 0 lines f hf
          rw [hconf]

/-- C1 counterexample: a concrete run with `requireBackup` false and
`dryRun` false writes files, validation fails, and no restore is
attempted — refuting the claim's guarantee on runs without a backup
handle. -/
theorem no_restore_attempted_without_backup :
    (runSafeFixes noBackupFailureParams).2.wroteFiles = true
    ∧ (runSafeFixes noBackupFailureParams).2.validationFailed = true
    ∧ (runSafeFixes noBackupFailureParams).2.restoreAttempted = false := by
  decide

/-- Witness for `runSafeFixes_rollback_when_backup` at the same run
with `requireBackup` turned on. -/
theorem runSafeFixes_rollback_when_backup_witness :
    (runSafeFixes { noBackupFailureParams with requireBackup := true }).2.restoreAttempted
      = true :=
  runSafeFixes_rollback_when_backup { noBackupFailureParams with requireBackup := true }
    (by decide) (by decide) rfl

/-- Witness for `runSafeFixes_silent_success_no_backup` at the
concrete run. -/
theorem runSafeFixes_silent_success_no_backup_witness :
    (runSafeFixes noBackupFailureParams).1.success = true
    ∧ (runSafeFixes noBackupFailureParams).1.errors = []
    ∧ (runSafeFixes noBackupFailureParams).2.validationFailed = true
    ∧ (runSafeFixes noBackupFailureParams).2.restoreAttempted = false :=
  runSafeFixes_silent_success_no_backup noBackupFailureParams rfl rfl rfl rfl (by decide)

/-- C5 counterexample: under the default whitelist markers, a
`@vibesweep-ignore` marker on the preceding line does not suppress the
regex-fallback candidate on the following line — the detector returns
the fix at line 2, and the change set built from it removes line 2. -/
theorem regex_fallback_misses_preceding_marker :
    shouldPreserve (some mergedWhitelistPred) "// @vibesweep-ignore" = true
    ∧ ((findConsoleLogStatements (some mergedWhitelistPred) "src/app.js"
        ["// @vibesweep-ignore", "console.log('x');"] false []).map (fun f => f.line)) = [2]
    ∧ ((removeConsoleLogs "src/app.js" ["// @vibesweep-ignore", "console.log('x');"]
        (findConsoleLogStatements (some mergedWhitelistPred) "src/app.js"
          ["// @vibesweep-ignore", "console.log('x');"] false [])).map (fun c => c.line))
      = [2] := by
  refine ⟨by decide, by decide, by decide⟩

/-- Witness for `preserve_marker_suppression`: both conjuncts applied
at concrete marked files. -/
theorem preserve_marker_suppression_witness :
    (∀ f ∈ findConsoleLogStatements (some mergedWhitelistPred) "src/app.js"
        ["// @vibesweep-ignore", "console.log('x');"] true
        [{ startLine := 2, startCol := 0, genCode := "console.log('x')",
           argsAllStringLit := false, parentIsSequence := false, inConditional := false }],
      f.line ≠ 2)
    ∧ (∀ f ∈ findWithRegex (some mergedWhitelistPred) "src/app.js"
        ["console.log('x'); // @preserve"], f.line ≠ 1) :=
  ⟨preserve_marker_suppression.1 (some mergedWhitelistPred) "src/app.js"
      ["// @vibesweep-ignore", "console.log('x');"]
      [{ startLine := 2, startCol := 0, genCode := "console.log('x')",
         argsAllStringLit := false, parentIsSequence := false, inConditional := false }]
      2 (by decide),
   preserve_marker_suppression.2 (some mergedWhitelistPred) "src/app.js"
      ["console.log('x'); // @preserve"] 1 (by decide)⟩

/-- C8 counterexample: `minConfidence` is configurable (here 0.99 in a
legal `FixTypeConfig`), yet the detector returns a candidate of
confidence 0.95 < 0.99 — the threshold in force is not the configured
minimum. -/
theorem configured_minimum_not_enforced :
    ({ enabled := true, excludePatterns := [], minConfidence := some (mkRat 99 100) }
        : FixTypeConfig).minConfidence.getD (mkRat 9 10) = mkRat 99 100
    ∧ ((findConsoleLogStatements none "src/app.js" ["console.log(x);"] true
        [{ startLine := 1, startCol := 0, genCode := "console.log(x)",
           argsAllStringLit := false, parentIsSequence := false, inConditional := false }]).map
        (fun f => f.confidence)) = [mkRat 95 100]
    ∧ (mkRat 95 100 < mkRat 99 100) := by
  refine ⟨rfl, by decide, by decide⟩

/-- Witness for `detector_minimum_is_hardcoded`: the fix returned on a
concrete file has confidence at least 0.9. -/
theorem detector_minimum_is_hardcoded_witness :
    mkRat 9 10 ≤ ({ file := "src/app.js", line := 1, column := 0, code := "console.log(x)",
                    isInTestFile := false, confidence := mkRat 95 100 } : ConsoleLogFix).confidence :=
  detector_minimum_is_hardcoded none "src/app.js" ["console.log(x);"] true
    [{ startLine := 1, startCol := 0, genCode := "console.log(x)",
       argsAllStringLit := false, parentIsSequence := false, inConditional := false }]
    { file := "src/app.js", line := 1, column := 0, code := "console.log(x)",
      isInTestFile := false, confidence := mkRat 95 100 }
    (by decide)

/-- C10: for every user configuration, each of the merged whitelist's
`files`, `patterns` and `comments` lists is the default list with the
user's entries appended after it, so every default entry is retained
and user input can never remove or replace a default entry. -/
theorem mergeWhitelist_retains_all_defaults (u : Option WhitelistConfig) :
    (∀ x ∈ defaultWhitelist.files, x ∈ (mergeWhitelist u).files)
    ∧ (∀ x ∈ defaultWhitelist.patterns, x ∈ (mergeWhitelist u).patterns)
    ∧ (∀ x ∈ defaultWhitelist.comments, x ∈ (mergeWhitelist u).comments)
    ∧ (mergeWhitelist u).files
        = defaultWhitelist.files ++ (match u with | some w => w.files | none => [])
    ∧ (mergeWhitelist u).patterns
        = defaultWhitelist.patterns ++ (match u with | some w => w.patterns | none => [])
    ∧ (mergeWhitelist u).comments
        = defaultWhitelist.comments ++ (match u with | some w => w.comments | none => []) :=
  ⟨fun _ hx => List.mem_append_left _ hx, fun _ hx => List.mem_append_left _ hx,
   fun _ hx => List.mem_append_left _ hx, rfl, rfl, rfl⟩

/-- Witness for `mergeWhitelist_retains_all_defaults` at a concrete
user whitelist. -/
theorem mergeWhitelist_retains_all_defaults_witness :
    (∀ x ∈ defaultWhitelist.files,
      x ∈ (mergeWhitelist (some { files := ["app/legacy/**"], patterns := ["KEEP_.*"],
                                  comments := ["@ours-keep"] })).files)
    ∧ (∀ x ∈ defaultWhitelist.patterns,
      x ∈ (mergeWhitelist (some { files := ["app/legacy/**"], patterns := ["KEEP_.*"],
                                  comments := ["@ours-keep"] })).patterns)
    ∧ (∀ x ∈ defaultWhitelist.comments,
      x ∈ (mergeWhitelist (some { files := ["app/legacy/**"], patterns := ["KEEP_.*"],
                                  comments := ["@ours-keep"] })).comments)
    ∧ (mergeWhitelist (some { files := ["app/legacy/**"], patterns := ["KEEP_.*"],
                              comments := ["@ours-keep"] })).files
        = defaultWhitelist.files ++ ["app/legacy/**"]
    ∧ (mergeWhitelist (some { files := ["app/legacy/**"], patterns := ["KEEP_.*"],
                              comments := ["@ours-keep"] })).patterns
        = defaultWhitelist.patterns ++ ["KEEP_.*"]
    ∧ (mergeWhitelist (some { files := ["app/legacy/**"], patterns := ["KEEP_.*"],
                              comments := ["@ours-keep"] })).comments
        = defaultWhitelist.comments ++ ["@ours-keep"] :=
  mergeWhitelist_retains_all_defaults
    (some { files := ["app/legacy/**"], patterns := ["KEEP_.*"], comments := ["@ours-keep"] })

/-- C7 counterexample: for the line `console.log('a'); const x = 5;`
the trimmed line is not exactly the matched statement, yet the builder
emits a whole-line Remove — dropping `const x = 5;` — instead of the
Replace the claim requires.  The condition in force is
`trimmedLine.startsWith('console.')`, not equality with the match. -/
theorem remove_not_only_for_exact_statement :
    jsTrim "console.log('a'); const x = 5;" ≠ "console.log('a');"
    ∧ (removeConsoleLogs "src/app.js" ["console.log('a'); const x = 5;"]
        [{ file := "src/app.js", line := 1, column := 0, code := "console.log('a');",
           isInTestFile := false, confidence := mkRat 95 100 }])
      = [{ file := "src/app.js", line := 1, kind := ChangeKind.remove,
           oldContent := some "console.log('a'); const x = 5;", newContent := none,
           description := "Remove console.log statement" }] := by
  refine ⟨by decide, by decide⟩

/-- C7 (amended): for a single-line candidate (trimmed line ending in
`);`, so the multi-line scan is not taken), the builder emits one
whole-line Remove exactly when the trimmed line starts with
`console.`, and otherwise one Replace whose new content excises only
the matched call; on Scenario B's line the result is
`const x = 5;  const y = 10;` in exactly one Replace edit. -/
theorem removeConsoleLogs_single_line_rule :
    (∀ (fp : String) (lines : List String) (fix : ConsoleLogFix),
      strEndsWithStr (jsTrim (lines.getD (fix.line - 1) "")) ");" = true →
      removeConsoleLogs fp lines [fix] =
        (if strStartsWithStr (jsTrim (lines.getD (fix.line - 1) "")) "console." then
          [{ file := fp, line := fix.line, kind := ChangeKind.remove,
             oldContent := some (lines.getD (fix.line - 1) ""), newContent := none,
             description := "Remove console." ++ consoleKindOf fix.code ++ " statement" }]
        else
          [{ file := fp, line := fix.line, kind := ChangeKind.replace,
             oldContent := some (lines.getD (fix.line - 1) ""),
             newContent := some (replaceConsoleCall (lines.getD (fix.line - 1) "")),
             description := "Remove console." ++ consoleKindOf fix.code ++ " from line" }]))
    ∧ (removeConsoleLogs "src/app.js"
        ["const x = 5; console.log('value:', x); const y = 10;"]
        [{ file := "src/app.js", line := 1, column := 13, code := "console.log('value:',x);",
           isInTestFile := false, confidence := mkRat 95 100 }]
      = [{ file := "src/app.js", line := 1, kind := ChangeKind.replace,
           oldContent := some "const x = 5; console.log('value:', x); const y = 10;",
           newContent := some "const x = 5;  const y = 10;",
           description := "Remove console.log from line" }]) := by
  constructor
  · intro fp lines fix h
    rw [removeConsoleLogs]
    show removeConsoleLogsAux fp lines [fix] [] = _
    rw [removeConsoleLogsAux]
    simp only [List.contains, List.elem_eq_mem, List.not_mem_nil, decide_False,
      Bool.false_eq_true, if_false, if_true, h, Bool.not_true, Bool.false_and,
      removeConsoleLogsAux, List.append_nil]
  · decide

/-- `qmul` is multiplication on `ℚ`. -/
theorem qmul_eq_mul (a b : ℚ) : qmul a b = a * b := by
  rw [qmul, Rat.mkRat_eq_div]
  push_cast
  rw [← div_mul_div_comm, Rat.num_div_den a, Rat.num_div_den b]

theorem insertChangeDesc_of_forall_lt (c : Change) (t : List Change)
    (h : ∀ d ∈ t, d.line < c.line) :
    insertChangeDesc c t = c :: t := by
  cases t with
  | nil => rfl
  | cons d t' =>
      rw [insertChangeDesc, if_pos]
      exact Nat.le_of_lt (h d (List.mem_cons_self _ _))

theorem sortChangesDesc_eq_self (cs : List Change)
    (h : List.Pairwise (fun a b => b.line < a.line) cs) :
    sortChangesDesc cs = cs := by
  induction cs with
  | nil => rfl
  | cons c t ih =>
      rw [sortChangesDesc, ih (List.Pairwise.sublist (List.sublist_cons_self c t) h),
        insertChangeDesc_of_forall_lt c t (fun d hd => List.rel_of_pairwise_cons h hd)]

theorem changeAt_eq_none (cs : List Change) (k : Nat) (h : ∀ c ∈ cs, c.line ≠ k) :
    changeAt cs k = none := by
  rw [changeAt, List.find?_eq_none]
  intro c hc
  simpa using h c hc

theorem applySimultaneousAux_append (cs : List Change) (k : Nat) (xs ys : List String) :
    applySimultaneousAux cs k (xs ++ ys)
      = applySimultaneousAux cs k xs ++ applySimultaneousAux cs (k + xs.length) ys := by
  induction xs generalizing k with
  | nil => simp [applySimultaneousAux]
  | cons x xs ih =>
      rw [List.cons_append, applySimultaneousAux, applySimultaneousAux, ih (k + 1),
        List.append_assoc, List.length_cons]
      have : k + 1 + xs.length = k + (xs.length + 1) := by omega
      rw [this]

theorem applySimultaneousAux_of_lt (cs : List Change) (k : Nat) (ys : List String)
    (h : ∀ c ∈ cs, c.line < k) :
    applySimultaneousAux cs k ys = ys := by
  induction ys generalizing k with
  | nil => rfl
  | cons y ys ih =>
      rw [applySimultaneousAux,
        changeAt_eq_none cs k (fun c hc => Nat.ne_of_lt (h c hc)), renderLine,
        ih (k + 1) (fun c hc => Nat.lt_succ_of_lt (h c hc))]
      rfl

theorem changeAt_cons_ne (c : Change) (cs : List Change) (k : Nat) (h : c.line ≠ k) :
    changeAt (c :: cs) k = changeAt cs k := by
  rw [changeAt, changeAt, List.find?_cons_of_neg]
  simpa using h

theorem changeAt_cons_self (c : Change) (cs : List Change) :
    changeAt (c :: cs) c.line = some c := by
  rw [changeAt, List.find?_cons_of_pos]
  simp

theorem applySimultaneousAux_cons_of_ge (c : Change) (cs : List Change) (k : Nat)
    (ys : List String) (h : k + ys.length ≤ c.line) :
    applySimultaneousAux (c :: cs) k ys = applySimultaneousAux cs k ys := by
  induction ys generalizing k with
  | nil => rfl
  | cons y ys ih =>
      rw [applySimultaneousAux, applySimultaneousAux,
        changeAt_cons_ne c cs k (by simp at h; omega),
        ih (k + 1) (by simp at h; omega)]

theorem applyOne_decomp (lines : List String) (c : Change)
    (h1 : 1 ≤ c.line) (h2 : c.line ≤ lines.length) :
    applyOne lines c
      = lines.take (c.line - 1)
        ++ renderLine (some c) (lines.get ⟨c.line - 1, by omega⟩)
        ++ lines.drop c.line := by
  obtain ⟨cf, cl, ck, co, cn, cd⟩ := c
  simp only at h1 h2
  have hlt : cl - 1 < lines.length := by omega
  have hsucc : cl - 1 + 1 = cl := by omega
  have hget : lines.get ⟨cl - 1, hlt⟩ = lines[cl - 1] := by
    rw [List.get_eq_getElem]
  have hsplit : lines.take cl = lines.take (cl - 1) ++ [lines[cl - 1]] := by
    conv_lhs => rw [← hsucc]
    rw [List.take_succ, List.getElem?_eq_getElem hlt]
    simp
  have hfull : lines = lines.take (cl - 1) ++ lines.get ⟨cl - 1, hlt⟩ :: lines.drop cl := by
    rw [hget]
    conv_lhs => rw [← List.take_append_drop cl lines]
    rw [hsplit, List.append_assoc, List.singleton_append]
  rw [applyOne, renderLine]
  cases ck with
  | remove =>
      simp only
      rw [hsucc, List.append_nil]
  | replace =>
      cases cn with
      | some s =>
          simp only
          rw [List.set_eq_take_cons_drop s hlt, hsucc, List.append_assoc,
            List.singleton_append]
      | none =>
          simp only
          conv_lhs => rw [hfull]
          rw [List.append_assoc, List.singleton_append]
  | add =>
      cases cn with
      | some s =>
          simp only
          rw [hsucc, hsplit, hget]
          simp only [List.append_assoc, List.cons_append, List.singleton_append, List.nil_append]
      | none =>
          simp only
          conv_lhs => rw [hfull]
          rw [List.append_assoc, List.singleton_append]
theorem list_split_at (lines : List String) (i : Nat) (h : i < lines.length) :
    lines = lines.take i ++ lines.get ⟨i, h⟩ :: lines.drop (i + 1) := by
  rw [List.get_eq_getElem]
  conv_lhs => rw [← List.take_append_drop i lines]
  rw [List.drop_eq_getElem_cons h]

theorem foldl_applyOne_eq_simultaneous (cs : List Change) :
    ∀ (lines : List String),
      List.Pairwise (fun a b => b.line < a.line) cs →
      (∀ c ∈ cs, 1 ≤ c.line ∧ c.line ≤ lines.length) →
      cs.foldl applyOne lines = applySimultaneous cs lines := by
  induction cs with
  | nil =>
      intro lines _ _
      rw [List.foldl_nil, applySimultaneous,
        applySimultaneousAux_of_lt [] 1 lines (fun c hc => absurd hc (List.not_mem_nil c))]
  | cons c t ih =>
      intro lines hsorted hbound
      have h1 := (hbound c (List.mem_cons_self c t)).1
      have h2 := (hbound c (List.mem_cons_self c t)).2
      have hlt : c.line - 1 < lines.length := by omega
      have hpre_len : (lines.take (c.line - 1)).length = c.line - 1 := by
        rw [List.length_take]
        omega
      have htail : ∀ d ∈ t, d.line < c.line :=
        fun d hd => List.rel_of_pairwise_cons hsorted hd
      have happ : applyOne lines c
          = lines.take (c.line - 1)
            ++ renderLine (some c) (lines.get ⟨c.line - 1, hlt⟩)
            ++ lines.drop c.line :=
        applyOne_decomp lines c h1 h2
      have hbound' : ∀ d ∈ t, 1 ≤ d.line ∧ d.line ≤ (applyOne lines c).length := by
        intro d hd
        refine ⟨(hbound d (List.mem_cons_of_mem _ hd)).1, ?_⟩
        rw [happ]
        simp only [List.length_append, hpre_len]
        have := htail d hd
        omega
      rw [List.foldl_cons, ih (applyOne lines c) (List.Pairwise.of_cons hsorted) hbound',
        happ]
      have hdrop : lines.drop c.line = lines.drop (c.line - 1 + 1) := by
        congr 1
        omega
      have hsplit : lines = lines.take (c.line - 1)
          ++ lines.get ⟨c.line - 1, hlt⟩ :: lines.drop c.line := by
        rw [hdrop]
        exact list_split_at lines (c.line - 1) hlt
      rw [applySimultaneous, applySimultaneous, List.append_assoc,
        applySimultaneousAux_append t 1 (lines.take (c.line - 1)),
        applySimultaneousAux_of_lt t (1 + (lines.take (c.line - 1)).length)
          (renderLine (some c) (lines.get ⟨c.line - 1, hlt⟩) ++ lines.drop c.line)
          (by intro d hd; rw [hpre_len]; have := htail d hd; omega)]
      conv_rhs => rw [hsplit]
      rw [applySimultaneousAux_append (c :: t) 1 (lines.take (c.line - 1)),
        applySimultaneousAux_cons_of_ge c t 1 (lines.take (c.line - 1))
          (by rw [hpre_len]; omega)]
      have hk : 1 + (lines.take (c.line - 1)).length = c.line := by
        rw [hpre_len]
        omega
      rw [hk, applySimultaneousAux, changeAt_cons_self,
        applySimultaneousAux_of_lt (c :: t) (c.line + 1) (lines.drop c.line)
          (by
            intro d hd
            rcases List.mem_cons.mp hd with rfl | hdt
            · omega
            · have := htail d hdt
              omega)]

/-- C6: applying a change set whose edits are in strictly descending
line order and address existing lines through the sequential splice
loop shared by `applyChangesToFile` and `generateDiff` yields exactly
the file in which every edit is interpreted against the original
file's line numbering in one bottom-up pass — each splice touches only
indices at or above its own line, so the earlier (lower) line indices
stay valid as later lines are removed, replaced or inserted. -/
theorem applyChangesToFile_eq_simultaneous (cs : List Change) (lines : List String)
    (hsorted : List.Pairwise (fun a b => b.line < a.line) cs)
    (hbound : ∀ c ∈ cs, 1 ≤ c.line ∧ c.line ≤ lines.length) :
    applyChangesToFile lines cs = applySimultaneous cs lines := by
  rw [applyChangesToFile, sortChangesDesc_eq_self cs hsorted]
  exact foldl_applyOne_eq_simultaneous cs lines hsorted hbound

/-- Witness for `applyChangesToFile_eq_simultaneous`: a remove and a
replace on a three-line file. -/
theorem applyChangesToFile_eq_simultaneous_witness :
    applyChangesToFile ["const a = 1;", "console.log('x');", "const b = 2;"]
      [{ file := "f.js", line := 2, kind := ChangeKind.remove,
         oldContent := some "console.log('x');", newContent := none,
         description := "Remove console.log statement" },
       { file := "f.js", line := 1, kind := ChangeKind.replace,
         oldContent := some "const a = 1;", newContent := some "const a = 10;",
         description := "edit" }]
      = applySimultaneous
          [{ file := "f.js", line := 2, kind := ChangeKind.remove,
             oldContent := some "console.log('x');", newContent := none,
             description := "Remove console.log statement" },
           { file := "f.js", line := 1, kind := ChangeKind.replace,
             oldContent := some "const a = 1;", newContent := some "const a = 10;",
             description := "edit" }]
          ["const a = 1;", "console.log('x');", "const b = 2;"] :=
  applyChangesToFile_eq_simultaneous _ _ (by decide) (by decide)

/-- Witness for `removeConsoleLogs_single_line_rule`: a lone indented
`console.log` line is removed whole (Scenario A). -/
theorem removeConsoleLogs_single_line_rule_witness :
    removeConsoleLogs "src/app.js" ["  console.log('hello');"]
      [{ file := "src/app.js", line := 1, column := 2, code := "console.log('hello');",
         isInTestFile := false, confidence := mkRat 99 100 }]
      = [{ file := "src/app.js", line := 1, kind := ChangeKind.remove,
           oldContent := some "  console.log('hello');", newContent := none,
           description := "Remove console.log statement" }] := by
  rw [removeConsoleLogs_single_line_rule.1 "src/app.js" ["  console.log('hello');"]
    { file := "src/app.js", line := 1, column := 2, code := "console.log('hello');",
      isInTestFile := false, confidence := mkRat 99 100 } (by decide)]
  decide

end Vibesweep
